import Mathlib

/-!
# AliFMDRawReader::Exec — raw FMD data to digits

Shallow embedding of `AliFMDRawReader::Exec` (FMD/AliFMDRawReader.cxx).

The collaborators of `Exec` whose code is not part of the translated file
(`AliRawReader`, `AliFMDAltroReader`, `AliFMDParameters`, `AliFMDDigit`) enter
as data: the answers they give to the calls `Exec` makes on them.
A `ChannelRead` is the outcome of one call of `ReadChannel`, buffer content included;
`ReadChannel` and `readBlock` derive the outcomes of the calls on one block from the
channels in its raw data, the buffer being shared by the channels of the block.

Machine integers are natural numbers; the one place where a value is
stored into a narrower type after arithmetic (`UShort_t curStr`, `UShort_t ddl`)
carries an explicit `% 65536`.
-/

namespace AliFMDRawReader

/-! ## Data -/

/-- The seven arguments of the `AliFMDDigit` constructor call made by the fold loop, in
order: detector, ring, sector, strip and the three ADC counts. -/
structure AliFMDDigit where
  det : Nat
  ring : Char
  sec : Nat
  strip : Nat
  sample0 : Nat
  sample1 : Nat
  sample2 : Nat
deriving DecidableEq, Repr

/-- Messages `Exec` writes at error level (`Error` and `AliError`).  `AliDebug` output is not
modelled. -/
inductive LogMsg where
  /-- The call `Error("ReadAdcs", "Couldn't read header")`. -/
  | headerError
  /-- The message `Failed to detector id from DDL %d and hardware address 0x%x`. -/
  | unmapped (ddl hwaddr : Nat)
  /-- The message `Current strip is %d but DB says max is %d`. -/
  | stripRange (curStr stripMax : Nat)
deriving DecidableEq, Repr

/-- Calls `Exec` makes on `fReader`, in program order. -/
inductive ReaderCall where
  | ReadHeader
  | Select (mask : Nat)
  | ReadNextData
  | GetDataSize
  | GetDDLID
deriving DecidableEq, Repr

/-- What `Exec` uses of `AliFMDParameters`: the constant `kBaseDDL`, `GetSampleRate(ddl)` and
`Hardware2Detector(ddl, hwaddr, det, ring, sec, str)`; the latter is `none` when the call
returns false and otherwise the values written to `det`, `ring`, `sec`, `str`. -/
structure AliFMDParameters where
  kBaseDDL : Nat
  GetSampleRate : Nat → Nat
  Hardware2Detector : Nat → Nat → Option (Nat × Char × Nat × Nat)

/-- One call `r.ReadChannel(hwaddr, last, data)` that returned a positive value: the values
written to `hwaddr` and `last`, the whole content of the buffer `data` after the call
(entries at `last` and beyond are whatever the buffer holds there), and the answer `r.IsBof()`
gives after the call. -/
structure ChannelRead where
  hwaddr : Nat
  last : Nat
  data : Nat → Nat
  IsBof : Bool

/-- One call `fReader->ReadNextData(cdata)` that returned true: the value of `GetDDLID()` for
the block and what successive calls of `ReadChannel` on the block return as long as they
return a positive value; the call after the last of them returns a value `<= 0`.  `Exec` may
stop calling earlier, on `IsBof()` (see `channelsRead`). -/
structure Block where
  ddlId : Int
  channels : List ChannelRead

/-- The raw-data source `fReader`: the answer of `ReadHeader()` and the blocks that
`ReadNextData` hands out before it first returns false. -/
structure AliRawReader where
  ReadHeader : Bool
  blocks : List Block

/-- What a run of `Exec` leaves behind: the digits in `array` (slot order), the error-level
messages, the calls made on `fReader`, and (ghost) the indices at which `data` was read. -/
structure ExecState where
  array : List AliFMDDigit
  log : List LogMsg
  calls : List ReaderCall
  reads : List Nat
deriving DecidableEq, Repr

/-- Variables in scope of the fold loop. -/
structure FoldVars where
  det : Nat
  ring : Char
  sec : Nat
  str : Nat
  rate : Nat
  stripMin : Nat
  stripMax : Nat
  preSamp : Nat
  last : Nat
  data : Nat → Nat

/-! ## Code -/

/-- The loop `for (size_t i = 0; i < last; i++) { ... }` of `Exec`, started at index `i`.
The first argument bounds the number of iterations; every iteration advances `i` by at least
one, so `last - i` iterations suffice (see `foldLoop_fuel`).  `curStr` is a `UShort_t`, hence
the `% 65536`; the test `(curStr-str) > stripMax` is made on `int` values.  With `rate = 0` the
source divides by zero; the value of the model there (`i / 0 = 0`) has no counterpart. -/
def foldLoop (v : FoldVars) : Nat → Nat → ExecState → ExecState
  | 0, _, s => s
  | fuel + 1, i, s =>
    if i < v.last then
      if i < v.preSamp then foldLoop v fuel (i + 1) s
      else
        let curStr := (v.str + v.stripMin + i / v.rate) % 65536
        let s1 : ExecState :=
          if ((curStr : Int) - (v.str : Int) > (v.stripMax : Int)) then
            { s with log := s.log ++ [LogMsg.stripRange curStr v.stripMax] }
          else s
        let d : AliFMDDigit :=
          { det := v.det, ring := v.ring, sec := v.sec, strip := curStr,
            sample0 := v.data i,
            sample1 := if v.rate ≥ 2 then v.data (i + 1) else 0,
            sample2 := if v.rate ≥ 3 then v.data (i + 2) else 0 }
        let rd : List Nat :=
          [i] ++ (if v.rate ≥ 2 then [i + 1] else []) ++ (if v.rate ≥ 3 then [i + 2] else [])
        let i1 := if v.rate ≥ 2 then i + 1 else i
        let i2 := if v.rate ≥ 3 then i1 + 1 else i1
        foldLoop v fuel (i2 + 1)
          { s1 with array := s1.array ++ [d], reads := s1.reads ++ rd }
    else s

/-- The variables of the fold loop as `Exec` sets them for one mapped channel:
`stripMin = 0`, `stripMax = 127`, `preSamp = 0`. -/
def channelVars (det : Nat) (ring : Char) (sec str rate last : Nat) (data : Nat → Nat) :
    FoldVars :=
  { det := det, ring := ring, sec := sec, str := str, rate := rate,
    stripMin := 0, stripMax := 127, preSamp := 0, last := last, data := data }

/-- The fold loop as `Exec` runs it for one mapped channel, from `i = 0`. -/
def foldChannel (det : Nat) (ring : Char) (sec str rate last : Nat) (data : Nat → Nat)
    (s : ExecState) : ExecState :=
  foldLoop (channelVars det ring sec str rate last data) last 0 s

/-- The loop `while (r.ReadChannel(hwaddr, last, data) > 0) { ... }` over the reads that are
still to come.  An unmapped address logs and continues, without the `IsBof` test; a mapped
channel is folded and the loop is left when `r.IsBof()` holds. -/
def whileChannels (p : AliFMDParameters) (ddl rate : Nat) :
    List ChannelRead → ExecState → ExecState
  | [], s => s
  | ch :: rest, s =>
    match p.Hardware2Detector ddl ch.hwaddr with
    | none =>
      whileChannels p ddl rate rest { s with log := s.log ++ [LogMsg.unmapped ddl ch.hwaddr] }
    | some (det, ring, sec, str) =>
      let s1 := foldChannel det ring sec str rate ch.last ch.data s
      if ch.IsBof then s1 else whileChannels p ddl rate rest s1

/-- The value of `UShort_t ddl = AliFMDParameters::kBaseDDL + fReader->GetDDLID()`. -/
def ddlOf (p : AliFMDParameters) (b : Block) : Nat :=
  (((p.kBaseDDL : Int) + b.ddlId) % 65536).toNat

/-- The loop `do { ... } while (true)` over the blocks still to come; it is left when
`ReadNextData` returns false. -/
def doBlocks (p : AliFMDParameters) : List Block → ExecState → ExecState
  | [], s => { s with calls := s.calls ++ [ReaderCall.ReadNextData] }
  | b :: rest, s =>
    let s0 : ExecState :=
      { s with calls := s.calls ++
          [ReaderCall.ReadNextData, ReaderCall.GetDataSize, ReaderCall.GetDDLID] }
    let ddl := ddlOf p b
    let rate := p.GetSampleRate ddl
    doBlocks p rest (whileChannels p ddl rate b.channels s0)

/-- The state at the end of `AliFMDRawReader::Exec`. -/
def Exec (p : AliFMDParameters) (r : AliRawReader) : ExecState :=
  if !r.ReadHeader then
    { array := [], log := [LogMsg.headerError], calls := [ReaderCall.ReadHeader], reads := [] }
  else
    doBlocks p r.blocks
      { array := [], log := [],
        calls := [ReaderCall.ReadHeader, ReaderCall.Select (p.kBaseDDL / 256)], reads := [] }

/-- An empty state, for stating what one channel contributes. -/
def ExecState.empty : ExecState := { array := [], log := [], calls := [], reads := [] }

/-- State `a` followed by what `b` records. -/
def ExecState.append (a b : ExecState) : ExecState :=
  { array := a.array ++ b.array, log := a.log ++ b.log, calls := a.calls ++ b.calls,
    reads := a.reads ++ b.reads }

/-- A buffer holding the listed values from index 0 on and `fill` everywhere else. -/
def bufOf (xs : List Nat) (fill : Nat) : Nat → Nat := fun i => xs.getD i fill

/-! ## Reference description of one channel's fold -/

/-- Number of groups of `rate` samples needed to cover `last` samples. -/
def numGroups (rate last : Nat) : Nat := (last + rate - 1) / rate

/-- The digit of group `k` as the loop builds it: strip `str + k` stored in 16 bits, the samples
read from the buffer at `rate * k`, `rate * k + 1`, `rate * k + 2`. -/
def digitAt (v : FoldVars) (k : Nat) : AliFMDDigit :=
  { det := v.det, ring := v.ring, sec := v.sec, strip := (v.str + k) % 65536,
    sample0 := v.data (v.rate * k),
    sample1 := if v.rate ≥ 2 then v.data (v.rate * k + 1) else 0,
    sample2 := if v.rate ≥ 3 then v.data (v.rate * k + 2) else 0 }

/-- The condition of the bound check for group `k`: stored strip minus base strip, as a signed
difference, exceeds `stripMax`. -/
def warnsAt (v : FoldVars) (k : Nat) : Bool :=
  decide ((((v.str + k) % 65536 : Nat) : Int) - (v.str : Int) > (v.stripMax : Int))

/-- The message of the bound check for group `k`. -/
def warnMsg (v : FoldVars) (k : Nat) : LogMsg :=
  LogMsg.stripRange ((v.str + k) % 65536) v.stripMax

/-- Buffer indices read for group `k`. -/
def readsAt (v : FoldVars) (k : Nat) : List Nat :=
  [v.rate * k] ++ (if v.rate ≥ 2 then [v.rate * k + 1] else []) ++
    (if v.rate ≥ 3 then [v.rate * k + 2] else [])

/-- The reads of a block on which `ReadChannel` is called with success: the while loop is
left after the first mapped channel for which `IsBof()` holds, and later reads never happen. -/
def channelsRead (p : AliFMDParameters) (ddl : Nat) : List ChannelRead → List ChannelRead
  | [] => []
  | ch :: rest =>
    match p.Hardware2Detector ddl ch.hwaddr with
    | none => ch :: channelsRead p ddl rest
    | some _ => if ch.IsBof then [ch] else ch :: channelsRead p ddl rest

/-- What one channel contributes: one message and no digit when the address is unmapped, the
fold of the channel with the looked-up coordinates otherwise. -/
def channelOutput (p : AliFMDParameters) (ddl rate : Nat) (ch : ChannelRead) : ExecState :=
  match p.Hardware2Detector ddl ch.hwaddr with
  | none => { ExecState.empty with log := [LogMsg.unmapped ddl ch.hwaddr] }
  | some (det, ring, sec, str) =>
    foldChannel det ring sec str rate ch.last ch.data ExecState.empty

/-- Concatenation of contributions, in order. -/
def stateConcat : List ExecState → ExecState
  | [] => ExecState.empty
  | a :: rest => a.append (stateConcat rest)

/-- What one block contributes: the three calls on `fReader` and then its channels, folded at
the rate and with the address lookup of the link id of that block. -/
def blockOutput (p : AliFMDParameters) (b : Block) : ExecState :=
  ({ ExecState.empty with
      calls := [ReaderCall.ReadNextData, ReaderCall.GetDataSize, ReaderCall.GetDDLID] }).append
    (stateConcat ((channelsRead p (ddlOf p b) b.channels).map
      (channelOutput p (ddlOf p b) (p.GetSampleRate (ddlOf p b)))))

/-- Tells the message of an unmapped address from the others. -/
def LogMsg.isUnmapped : LogMsg → Bool
  | LogMsg.unmapped _ _ => true
  | _ => false

/-- Tells the message of the strip bound check from the others. -/
def LogMsg.isStripRange : LogMsg → Bool
  | LogMsg.stripRange _ _ => true
  | _ => false

/-! ## Concrete inputs -/

/-- Parameters of the end-to-end scenarios: every link has sample rate `rate`, hardware
address 0 maps to FMD1I sector 3 with base strip `str`, no other address is mapped. -/
def scenarioParams (rate str : Nat) : AliFMDParameters :=
  { kBaseDDL := 4096,
    GetSampleRate := fun _ => rate,
    Hardware2Detector := fun _ hw => if hw = 0 then some (1, 'I', 3, str) else none }

/-- A channel read with hardware address `hw` whose samples are `xs`; the buffer holds `fill`
behind them, and the read does not reach the beginning of the block. -/
def channelOf (hw : Nat) (xs : List Nat) (fill : Nat) : ChannelRead :=
  { hwaddr := hw, last := xs.length, data := bufOf xs fill, IsBof := false }

/-- Parameters that tell the links apart: the sample rate of link `ddl` is `ddl mod 3 + 1`,
hardware address 0 maps to detector `ddl mod 4096 + 1`, ring I, sector 3, base strip 10, and
no other address is mapped. -/
def linkParams : AliFMDParameters :=
  { kBaseDDL := 4096,
    GetSampleRate := fun ddl => ddl % 3 + 1,
    Hardware2Detector := fun ddl hw =>
      if hw = 0 then some (ddl % 4096 + 1, 'I', 3, 10) else none }

/-- One channel as it stands in the raw data of a block: hardware address and samples, and
the answer `r.IsBof()` gives once it is read. -/
structure ChannelRun where
  hwaddr : Nat
  samples : List Nat
  IsBof : Bool

/-- Modelled from the spec: `AliFMDAltroReader::ReadChannel(hwaddr, last, data)` is not among
the translated sources.  Following the channel decoder of the spec (a channel's samples are
stored densely, without gaps, in time order, `last` being their number), a call on the buffer
`buf` writes the samples to `data[0 .. last)` and leaves `data[last ..]` as it was. -/
def ReadChannel (buf : Nat → Nat) (c : ChannelRun) : ChannelRead :=
  { hwaddr := c.hwaddr, last := c.samples.length,
    data := fun i => if i < c.samples.length then c.samples.getD i 0 else buf i,
    IsBof := c.IsBof }

/-- The reads of one block: the buffer `data[2048]` is declared once per block, before the
loop over the channels, and every call of `ReadChannel` works on what the calls before it
left there; `init` is its content when the block is entered. -/
def readBlock (init : Nat → Nat) : List ChannelRun → List ChannelRead
  | [] => []
  | c :: rest => ReadChannel init c :: readBlock (ReadChannel init c).data rest

end AliFMDRawReader

/-!
# AliFMDAlignFaker::Exec — fake alignment objects

Shallow embedding of `AliFMDAlignFaker::Exec` and `MakeAlign`, `MakeAlignHalf`,
`MakeAlignSensor` (FMD/AliFMDAlignFaker.cxx).  The geometry (`gGeoManager`, `TGeoIterator`)
enters as data: the nodes the iterator returns, in order, with what `Exec` asks of each.
The random numbers drawn for the six local parameters are not modelled; an object records
which of `MakeAlignHalf` and `MakeAlignSensor` drew them.
-/

namespace AliFMDAlignFaker

/-! ## Data -/

/-- The function that made an object, hence the ranges its local parameters were drawn
from: `fHalfTrans*`, `fHalfRot*` or `fSensorTrans*`, `fSensorRot*`. -/
inductive Maker where
  | half
  | sensor
deriving DecidableEq, Repr

/-- An entry of `fArray`: the path and volume id given to the `AliAlignObjAngles`
constructor in `MakeAlign`, and the maker. -/
structure AliAlignObjAngles where
  path : List Char
  id : Int
  made : Maker
deriving DecidableEq, Repr

/-- Messages of `Exec` and `MakeAlign` above debug level. -/
inductive LogMsg where
  /-- The message `AliFatal(Form("Failed to import geometry from %s", GetName()))`. -/
  | importFailed
  /-- The message `AliFatal("No top-level volume defined")`. -/
  | noTopVolume
  /-- The message `AliWarning(Form("No node at level %d in path %s", lvl, path.Data()))`. -/
  | noNodeAtLevel (lvl : Nat) (path : List Char)
  /-- The message `AliError(Form("Failed to set local transforms on %s", path.Data()))`. -/
  | setLocalParsFailed (path : List Char)
deriving DecidableEq, Repr

/-- Which of `WriteToCDB()` and `WriteToFile()` is called at the end of `Exec`. -/
inductive Written where
  | cdb
  | file
deriving DecidableEq, Repr

/-- One node returned by `next()`: its name (the characters before the terminating NUL),
`next.GetLevel()`, the names of `next.GetNode(lvl)` (`none` for a null pointer),
`node->GetVolume()->GetNumber()`, and the answer `SetLocalPars` gives on the object made for
the node. -/
structure Visit where
  name : List Char
  level : Int
  nodeAt : Nat → Option (List Char)
  number : Int
  setLocalPars : Bool

/-- What `Exec` finds around it: whether `gGeoManager` is set, the answer of
`TGeoManager::Import(GetName())` when it is not, the top volume (`none` for a null pointer,
otherwise the nodes the iterator over it returns, in order), the name of
`gGeoManager->GetNode(0)`, and whether the title contains `local://`, `alien://`. -/
structure Geometry where
  gGeoManager : Bool
  importOk : Bool
  topVolume : Option (List Visit)
  topName : List Char
  titleHasLocal : Bool
  titleHasAlien : Bool

/-- The members of the task `Exec` works on: the mask (its bit pattern) and the array, `none`
for a null `fArray`. -/
structure Faker where
  fMask : Nat
  fArray : Option (List AliAlignObjAngles)

/-- The array and the messages during the loop over the nodes. -/
structure LoopState where
  fArray : List AliAlignObjAngles
  log : List LogMsg
deriving DecidableEq, Repr

/-- What `Exec` leaves behind: the array, the messages, the writer called. -/
structure Result where
  fArray : Option (List AliAlignObjAngles)
  log : List LogMsg
  written : Option Written
deriving DecidableEq, Repr

/-! ## Code -/

/-- The character `name[i]` of a C string: the NUL at its end when `i` is the length (and,
in this model, also beyond, where the source reads out of bounds). -/
def charAt (name : List Char) (i : Nat) : Char := name.getD i (Char.ofNat 0)

/-- The macro `IS_NODE_HALF(name)`. -/
def IS_NODE_HALF (name : List Char) : Bool :=
  charAt name 0 == 'F' && charAt name 2 == 'M' &&
    (charAt name 3 == 'T' || charAt name 3 == 'B')

/-- The macro `IS_NODE_SENSOR(name)`. -/
def IS_NODE_SENSOR (name : List Char) : Bool :=
  charAt name 0 == 'F' && charAt name 2 == 'S' && charAt name 3 == 'E'

/-- The macro `TESTBIT(n, i)`, that is `((n) & BIT(i)) != 0`, on the bit pattern of `n`. -/
def TESTBIT (n i : Nat) : Bool := n.testBit i

/-- One turn of the loop `for (Int_t lvl = 0; lvl <= nLevel; lvl++)` that builds the path. -/
def pathStep (v : Visit) (acc : List Char × List LogMsg) (lvl : Nat) :
    List Char × List LogMsg :=
  match v.nodeAt lvl with
  | none =>
    if lvl ≠ 0 then (acc.1, acc.2 ++ [LogMsg.noNodeAtLevel lvl acc.1]) else acc
  | some nm =>
    ((if acc.1 ≠ [] then acc.1 ++ ['/'] else acc.1) ++ nm, acc.2)

/-- The path of a node, from `TString path(Form("/%s", ...))` through the loop over the
levels `0 .. nLevel`, and the warnings of that loop. -/
def buildPath (top : List Char) (v : Visit) : List Char × List LogMsg :=
  (List.range (v.level + 1).toNat).foldl (pathStep v) ('/' :: top, [])

/-- The function `MakeAlign(path, id, transX, ..., rotZ)`: a new object in the slot
`fArray->GetEntries()`, an error message when `SetLocalPars` fails; the object stays in the
array either way.  The placement `new` does not return null, so the branch
`if (!obj)` is not taken. -/
def MakeAlign (path : List Char) (id : Int) (made : Maker) (setOk : Bool) (s : LoopState) :
    Bool × LoopState :=
  let s1 : LoopState := { s with fArray := s.fArray ++ [{ path := path, id := id, made := made }] }
  if !setOk then (true, { s1 with log := s1.log ++ [LogMsg.setLocalParsFailed path] })
  else (true, s1)

/-- The function `MakeAlignHalf(path, id)`. -/
def MakeAlignHalf (path : List Char) (id : Int) (setOk : Bool) (s : LoopState) :
    Bool × LoopState :=
  MakeAlign path id Maker.half setOk s

/-- The function `MakeAlignSensor(path, id)`. -/
def MakeAlignSensor (path : List Char) (id : Int) (setOk : Bool) (s : LoopState) :
    Bool × LoopState :=
  MakeAlign path id Maker.sensor setOk s

/-- The loop `while ((node = next()))` of `Exec` over the nodes still to come. `kHalves` and
`kSensors` are the bit numbers of the enumeration in the header. -/
def whileNodes (kHalves kSensors mask : Nat) (top : List Char) :
    List Visit → LoopState → LoopState
  | [], s => s
  | v :: rest, s =>
    if !(IS_NODE_HALF v.name && TESTBIT mask kHalves) &&
        !(IS_NODE_SENSOR v.name && TESTBIT mask kSensors) then
      whileNodes kHalves kSensors mask top rest s
    else
      let pw := buildPath top v
      let s0 : LoopState := { s with log := s.log ++ pw.2 }
      let s1 := if IS_NODE_HALF v.name then (MakeAlignHalf pw.1 v.number v.setLocalPars s0).2
        else s0
      let s2 := if IS_NODE_SENSOR v.name then
          (MakeAlignSensor pw.1 v.number v.setLocalPars s1).2
        else s1
      whileNodes kHalves kSensors mask top rest s2

/-- The state at the end of `AliFMDAlignFaker::Exec`. -/
def Exec (kHalves kSensors : Nat) (g : Geometry) (f : Faker) : Result :=
  if !g.gGeoManager && !g.importOk then
    { fArray := f.fArray, log := [LogMsg.importFailed], written := none }
  else
    match g.topVolume with
    | none => { fArray := f.fArray, log := [LogMsg.noTopVolume], written := none }
    | some visits =>
      let s := whileNodes kHalves kSensors f.fMask g.topName visits { fArray := [], log := [] }
      { fArray := some s.fArray, log := s.log,
        written := some (if g.titleHasLocal || g.titleHasAlien then Written.cdb
                         else Written.file) }

/-! ## Concrete inputs -/

/-- A node with the given name and volume number, at level 1 below a node `FMD1`. -/
def visitOf (name : String) (number : Int) : Visit :=
  { name := name.toList, level := 1,
    nodeAt := fun lvl => if lvl = 0 then some "FMD1".toList else
      if lvl = 1 then some name.toList else none,
    number := number, setLocalPars := true }

/-- A geometry with top node `ALIC` whose iterator returns the given nodes. -/
def geometryOf (visits : List Visit) : Geometry :=
  { gGeoManager := true, importOk := false, topVolume := some visits,
    topName := "ALIC".toList, titleHasLocal := true, titleHasAlien := false }

end AliFMDAlignFaker

namespace AliFMDRawReader

/-! ## Lemmas on the fold loop -/

theorem numGroups_lt_iff {rate : Nat} (hr : rate = 1 ∨ rate = 2 ∨ rate = 3) (last j : Nat) :
    rate * j < last ↔ j < numGroups rate last := by
  unfold numGroups
  rcases hr with h | h | h <;> subst h <;> omega

/-- With `last - i` iterations allowed the loop has run to its exit: more change nothing. -/
theorem foldLoop_fuel (v : FoldVars) (f1 f2 i : Nat) (s : ExecState)
    (h1 : v.last - i ≤ f1) (h2 : v.last - i ≤ f2) :
    foldLoop v f1 i s = foldLoop v f2 i s := by
  induction f1 generalizing f2 i s with
  | zero =>
    have hi : ¬ i < v.last := by omega
    cases f2 with
    | zero => rfl
    | succ n => simp [foldLoop, hi]
  | succ n ih =>
    cases f2 with
    | zero =>
      have hi : ¬ i < v.last := by omega
      simp [foldLoop, hi]
    | succ m =>
      simp only [foldLoop]
      by_cases hi : i < v.last
      · simp only [hi, if_true]
        by_cases hp : i < v.preSamp
        · simp only [hp, if_true]
          exact ih m (i + 1) s (by omega) (by omega)
        · simp only [hp, if_false]
          apply ih <;> (split <;> split <;> omega)
      · simp [hi]

/-- The loop started at the first sample of group `j`, in the setting of `Exec`
(`preSamp = 0`, `stripMin = 0`, rate 1, 2 or 3): it appends the digits of the groups
`j, j+1, ...` up to the last group, one message per group whose bound check fires, and reads
the buffer at the indices of those groups. -/
theorem foldLoop_eq (v : FoldVars) (hp : v.preSamp = 0) (hm : v.stripMin = 0)
    (hr : v.rate = 1 ∨ v.rate = 2 ∨ v.rate = 3) (fuel j : Nat) (s : ExecState)
    (hf : v.last - v.rate * j ≤ fuel) :
    foldLoop v fuel (v.rate * j) s =
      { array := s.array ++ (List.range' j (numGroups v.rate v.last - j)).map (digitAt v),
        log := s.log ++ ((List.range' j (numGroups v.rate v.last - j)).filter (warnsAt v)).map
                 (warnMsg v),
        calls := s.calls,
        reads := s.reads ++ (List.range' j (numGroups v.rate v.last - j)).flatMap (readsAt v) } := by
  induction fuel generalizing j s with
  | zero =>
    have h0 : ¬ v.rate * j < v.last := by omega
    have h1 : numGroups v.rate v.last - j = 0 := by
      have := (numGroups_lt_iff hr v.last j).not.mp h0
      omega
    simp [foldLoop, h1]
  | succ n ih =>
    by_cases hi : v.rate * j < v.last
    · have hj : j < numGroups v.rate v.last := (numGroups_lt_iff hr v.last j).mp hi
      have hn : numGroups v.rate v.last - j = (numGroups v.rate v.last - (j + 1)) + 1 := by omega
      have hdiv : v.rate * j / v.rate = j := by
        rcases hr with h | h | h <;> rw [h] <;> omega
      have key : foldLoop v (n + 1) (v.rate * j) s =
          foldLoop v n (v.rate * (j + 1))
            { array := s.array ++ [digitAt v j],
              log := s.log ++ (if warnsAt v j then [warnMsg v j] else []),
              calls := s.calls,
              reads := s.reads ++ readsAt v j } := by
        have hpre : ¬ v.rate * j < v.preSamp := by omega
        rw [foldLoop]
        simp only [hi, hpre, if_true, if_false, hm, hdiv, Nat.add_zero]
        by_cases hw : warnsAt v j
        · have hw2 := hw
          simp only [warnsAt, decide_eq_true_eq] at hw2
          simp only [if_pos hw2, hw, if_true]
          rcases hr with h | h | h <;>
            simp [h, digitAt, readsAt, warnMsg, Nat.mul_add]
        · have hw2 := hw
          simp only [warnsAt, decide_eq_true_eq] at hw2
          simp only [if_neg hw2, hw]
          rcases hr with h | h | h <;>
            simp [h, digitAt, readsAt, warnMsg, Nat.mul_add]
      have hf2 : v.last - v.rate * (j + 1) ≤ n := by
        rcases hr with h | h | h <;> rw [h] <;> rw [h] at hf <;> omega
      rw [key, ih (j + 1) _ hf2, hn, List.range'_succ]
      by_cases hw : warnsAt v j <;> simp [hw, List.filter_cons]
    · have h1 : numGroups v.rate v.last - j = 0 := by
        have := (numGroups_lt_iff hr v.last j).not.mp hi
        omega
      simp [foldLoop, hi, h1]

theorem ExecState.append_empty (a : ExecState) : a.append ExecState.empty = a := by
  cases a; simp [ExecState.append, ExecState.empty]

theorem ExecState.empty_append (a : ExecState) : ExecState.empty.append a = a := by
  cases a; simp [ExecState.append, ExecState.empty]

theorem ExecState.append_assoc (a b c : ExecState) :
    (a.append b).append c = a.append (b.append c) := by
  simp [ExecState.append, List.append_assoc]

/-- The loop only appends to the state it is given. -/
theorem foldLoop_frame (v : FoldVars) (fuel i : Nat) (s : ExecState) :
    foldLoop v fuel i s = s.append (foldLoop v fuel i ExecState.empty) := by
  induction fuel generalizing i s with
  | zero => simp [foldLoop, ExecState.append_empty]
  | succ n ih =>
    rw [foldLoop, foldLoop]
    by_cases hi : i < v.last
    · simp only [hi, if_true]
      by_cases hp : i < v.preSamp
      · simp only [hp, if_true]
        exact ih (i + 1) s
      · simp only [hp, if_false]
        rw [ih _ (s := ExecState.mk _ _ _ _)]
        conv_rhs => rw [ih _ (s := ExecState.mk _ _ _ _)]
        rw [← ExecState.append_assoc]
        congr 1
        split <;> simp [ExecState.append, ExecState.empty]
    · simp [hi, ExecState.append_empty]

theorem foldChannel_frame (det : Nat) (ring : Char) (sec str rate last : Nat)
    (data : Nat → Nat) (s : ExecState) :
    foldChannel det ring sec str rate last data s =
      s.append (foldChannel det ring sec str rate last data ExecState.empty) :=
  foldLoop_frame _ _ _ _

/-- One mapped channel at rate 1, 2 or 3: the digits of all groups, the messages of the
groups whose bound check fires, the reads of all groups. -/
theorem foldChannel_eq (det : Nat) (ring : Char) (sec str rate last : Nat)
    (data : Nat → Nat) (s : ExecState) (hr : rate = 1 ∨ rate = 2 ∨ rate = 3) :
    foldChannel det ring sec str rate last data s =
      { array := s.array ++
          (List.range' 0 (numGroups rate last)).map
            (digitAt (channelVars det ring sec str rate last data)),
        log := s.log ++
          ((List.range' 0 (numGroups rate last)).filter
            (warnsAt (channelVars det ring sec str rate last data))).map
            (warnMsg (channelVars det ring sec str rate last data)),
        calls := s.calls,
        reads := s.reads ++
          (List.range' 0 (numGroups rate last)).flatMap
            (readsAt (channelVars det ring sec str rate last data)) } := by
  have h := foldLoop_eq (channelVars det ring sec str rate last data) rfl rfl hr last 0 s
    (by simp [channelVars])
  simpa [foldChannel, channelVars] using h

/-! ## Lemmas on the channel and block loops -/

theorem stateConcat_append (l1 l2 : List ExecState) :
    stateConcat (l1 ++ l2) = (stateConcat l1).append (stateConcat l2) := by
  induction l1 with
  | nil => simp [stateConcat, ExecState.empty_append]
  | cons a rest ih => simp [stateConcat, ih, ExecState.append_assoc]

theorem stateConcat_array (l : List ExecState) :
    (stateConcat l).array = l.flatMap ExecState.array := by
  induction l with
  | nil => rfl
  | cons a rest ih => simp [stateConcat, ExecState.append, ih]

theorem stateConcat_log (l : List ExecState) :
    (stateConcat l).log = l.flatMap ExecState.log := by
  induction l with
  | nil => rfl
  | cons a rest ih => simp [stateConcat, ExecState.append, ih]

/-- The while loop appends the contributions of the channels it reads, in order. -/
theorem whileChannels_eq (p : AliFMDParameters) (ddl rate : Nat) (chs : List ChannelRead)
    (s : ExecState) :
    whileChannels p ddl rate chs s =
      s.append (stateConcat ((channelsRead p ddl chs).map (channelOutput p ddl rate))) := by
  induction chs generalizing s with
  | nil => simp [whileChannels, channelsRead, stateConcat, ExecState.append_empty]
  | cons ch rest ih =>
    rw [whileChannels, channelsRead]
    cases hmap : p.Hardware2Detector ddl ch.hwaddr with
    | none =>
      simp only [List.map_cons, stateConcat, channelOutput, hmap]
      rw [ih, ← ExecState.append_assoc]
      congr 1
      simp [ExecState.append, ExecState.empty]
    | some loc =>
      obtain ⟨det, ring, sec, str⟩ := loc
      simp only
      rw [foldChannel_frame]
      by_cases hb : ch.IsBof
      · simp [hb, stateConcat, channelOutput, hmap, ExecState.append_empty]
      · simp only [hb, Bool.false_eq_true, if_false, List.map_cons, stateConcat]
        rw [ih, ExecState.append_assoc]
        simp [channelOutput, hmap]

/-- The block loop appends the contributions of all blocks, in order, and ends with the
call of `ReadNextData` that returns false. -/
theorem doBlocks_eq (p : AliFMDParameters) (bs : List Block) (s : ExecState) :
    doBlocks p bs s =
      (s.append (stateConcat (bs.map (blockOutput p)))).append
        { ExecState.empty with calls := [ReaderCall.ReadNextData] } := by
  induction bs generalizing s with
  | nil =>
    simp [doBlocks, stateConcat, ExecState.append_empty]
    simp [ExecState.append, ExecState.empty]
  | cons b rest ih =>
    rw [doBlocks]
    simp only
    rw [ih, whileChannels_eq]
    simp only [List.map_cons, stateConcat, blockOutput]
    congr 1
    rw [← ExecState.append_assoc, ← ExecState.append_assoc]
    congr 2
    simp [ExecState.append, ExecState.empty]

/-- The digits a channel contributes at rate 1, 2 or 3, group by group. -/
theorem foldChannel_array (det : Nat) (ring : Char) (sec str rate last : Nat)
    (data : Nat → Nat) (s : ExecState) (hr : rate = 1 ∨ rate = 2 ∨ rate = 3) :
    (foldChannel det ring sec str rate last data s).array =
      s.array ++ (List.range (numGroups rate last)).map
        (digitAt (channelVars det ring sec str rate last data)) := by
  rw [foldChannel_eq _ _ _ _ _ _ _ _ hr, List.range_eq_range']

/-- The array after the while loop has taken a mapped channel: what was there, the fold of
the channel, and what later channels add. -/
theorem whileChannels_cons_mapped (p : AliFMDParameters) (ddl rate : Nat) (ch : ChannelRead)
    (rest : List ChannelRead) (s : ExecState) (det : Nat) (ring : Char) (sec str : Nat)
    (hmap : p.Hardware2Detector ddl ch.hwaddr = some (det, ring, sec, str)) :
    ∃ tail, (whileChannels p ddl rate (ch :: rest) s).array =
      (foldChannel det ring sec str rate ch.last ch.data s).array ++ tail := by
  rw [whileChannels, hmap]
  simp only
  by_cases hb : ch.IsBof
  · exact ⟨[], by simp [hb]⟩
  · refine ⟨(stateConcat ((channelsRead p ddl rest).map (channelOutput p ddl rate))).array, ?_⟩
    simp only [hb, Bool.false_eq_true, if_false]
    rw [whileChannels_eq]
    rfl

theorem blockOutput_array (p : AliFMDParameters) (b : Block) :
    (blockOutput p b).array =
      (channelsRead p (ddlOf p b) b.channels).flatMap
        (fun ch => (channelOutput p (ddlOf p b) (p.GetSampleRate (ddlOf p b)) ch).array) := by
  simp [blockOutput, ExecState.append, ExecState.empty, stateConcat_array, List.flatMap_map]

theorem blockOutput_log (p : AliFMDParameters) (b : Block) :
    (blockOutput p b).log =
      (channelsRead p (ddlOf p b) b.channels).flatMap
        (fun ch => (channelOutput p (ddlOf p b) (p.GetSampleRate (ddlOf p b)) ch).log) := by
  simp [blockOutput, ExecState.append, ExecState.empty, stateConcat_log, List.flatMap_map]

/-- The digits of a run whose header is read: block after block. -/
theorem Exec_array (p : AliFMDParameters) (r : AliRawReader) (h : r.ReadHeader = true) :
    (Exec p r).array = r.blocks.flatMap (fun b => (blockOutput p b).array) := by
  simp [Exec, h, doBlocks_eq, ExecState.append, ExecState.empty, stateConcat_array,
    List.flatMap_map]

/-- The messages of a run whose header is read: block after block. -/
theorem Exec_log (p : AliFMDParameters) (r : AliRawReader) (h : r.ReadHeader = true) :
    (Exec p r).log = r.blocks.flatMap (fun b => (blockOutput p b).log) := by
  simp [Exec, h, doBlocks_eq, ExecState.append, ExecState.empty, stateConcat_log,
    List.flatMap_map]

theorem stateConcat_calls (l : List ExecState) :
    (stateConcat l).calls = l.flatMap ExecState.calls := by
  induction l with
  | nil => rfl
  | cons a rest ih => simp [stateConcat, ExecState.append, ih]

/-- The calls on `fReader` of a run whose header is read. -/
theorem Exec_calls (p : AliFMDParameters) (r : AliRawReader) (h : r.ReadHeader = true) :
    (Exec p r).calls =
      ReaderCall.ReadHeader :: ReaderCall.Select (p.kBaseDDL / 256) ::
        (r.blocks.flatMap (fun b => (blockOutput p b).calls) ++ [ReaderCall.ReadNextData]) := by
  simp [Exec, h, doBlocks_eq, ExecState.append, ExecState.empty, stateConcat_calls,
    List.flatMap_map]

/-- Every message the fold loop adds is a strip-range message. -/
theorem foldLoop_log_mem (v : FoldVars) (fuel i : Nat) (s : ExecState) (m : LogMsg)
    (hm : m ∈ (foldLoop v fuel i s).log) :
    m ∈ s.log ∨ ∃ a b, m = LogMsg.stripRange a b := by
  induction fuel generalizing i s with
  | zero => exact Or.inl (by simpa [foldLoop] using hm)
  | succ n ih =>
    rw [foldLoop] at hm
    by_cases hi : i < v.last
    · simp only [hi, if_true] at hm
      by_cases hp : i < v.preSamp
      · simp only [hp, if_true] at hm
        exact ih _ _ hm
      · simp only [hp, if_false] at hm
        rcases ih _ _ hm with h | h
        · split at h
          · simp only [List.mem_append, List.mem_singleton] at h
            rcases h with h | h
            · exact Or.inl h
            · exact Or.inr ⟨_, _, h⟩
          · exact Or.inl h
        · exact Or.inr h
    · simp only [hi, if_false] at hm
      exact Or.inl hm

/-- The fold of a channel never logs the header error. -/
theorem channelOutput_log_ne_header (p : AliFMDParameters) (ddl rate : Nat) (ch : ChannelRead) :
    LogMsg.headerError ∉ (channelOutput p ddl rate ch).log := by
  intro hm
  unfold channelOutput at hm
  cases hmap : p.Hardware2Detector ddl ch.hwaddr with
  | none => simp [hmap, ExecState.empty] at hm
  | some loc =>
    obtain ⟨det, ring, sec, str⟩ := loc
    simp only [hmap, foldChannel] at hm
    rcases foldLoop_log_mem _ _ _ _ _ hm with h | ⟨a, b, h⟩
    · simp [ExecState.empty] at h
    · cases h

/-- The digits the loop appends do not depend on `stripMax`, nor on the messages so far. -/
theorem foldLoop_array_stripMax (v : FoldVars) (m fuel i : Nat) (s1 s2 : ExecState)
    (hs : s1.array = s2.array) :
    (foldLoop { v with stripMax := m } fuel i s1).array = (foldLoop v fuel i s2).array := by
  induction fuel generalizing i s1 s2 with
  | zero => simpa [foldLoop] using hs
  | succ n ih =>
    rw [foldLoop, foldLoop]
    by_cases hi : i < v.last
    · simp only [hi, if_true]
      by_cases hp : i < v.preSamp
      · simp only [hp, if_true]
        exact ih _ _ _ hs
      · simp only [hp, if_false]
        apply ih
        simp only [apply_ite ExecState.array, ite_self, hs]
    · simpa [hi] using hs

/-- When no read of a block other than its last reports `IsBof`, every read happens. -/
theorem channelsRead_all (p : AliFMDParameters) (ddl : Nat) (chs : List ChannelRead)
    (h : ∀ ch ∈ chs.dropLast, ch.IsBof = false) : channelsRead p ddl chs = chs := by
  induction chs with
  | nil => rfl
  | cons ch rest ih =>
    cases rest with
    | nil =>
      rw [channelsRead]
      cases p.Hardware2Detector ddl ch.hwaddr with
      | none => simp [channelsRead]
      | some loc => by_cases hb : ch.IsBof <;> simp [hb, channelsRead]
    | cons c2 rest2 =>
      have hch : ch.IsBof = false := h ch (by simp [List.dropLast])
      have ih2 := ih (fun c hc => h c (by simp [List.dropLast] at hc ⊢; exact Or.inr hc))
      rw [channelsRead]
      cases p.Hardware2Detector ddl ch.hwaddr with
      | none => simp [ih2]
      | some loc => simp [hch, ih2]

/-- The messages of one channel that report an unmapped address. -/
theorem channelOutput_log_unmapped (p : AliFMDParameters) (ddl rate : Nat) (ch : ChannelRead) :
    (channelOutput p ddl rate ch).log.filter LogMsg.isUnmapped =
      if (p.Hardware2Detector ddl ch.hwaddr).isNone then [LogMsg.unmapped ddl ch.hwaddr]
      else [] := by
  unfold channelOutput
  cases hmap : p.Hardware2Detector ddl ch.hwaddr with
  | none => simp [ExecState.empty, LogMsg.isUnmapped]
  | some loc =>
    obtain ⟨det, ring, sec, str⟩ := loc
    simp only [Option.isNone_some, Bool.false_eq_true, if_false, List.filter_eq_nil_iff]
    intro m hm
    rcases foldLoop_log_mem _ _ _ _ _ hm with h | ⟨a, b, h⟩
    · simp [ExecState.empty] at h
    · subst h
      simp [LogMsg.isUnmapped]

/-- The messages of one channel that come from the strip bound check. -/
theorem channelOutput_log_stripRange (p : AliFMDParameters) (ddl rate : Nat)
    (ch : ChannelRead) :
    (channelOutput p ddl rate ch).log.filter LogMsg.isStripRange =
      match p.Hardware2Detector ddl ch.hwaddr with
      | none => []
      | some (det, ring, sec, str) =>
        (foldChannel det ring sec str rate ch.last ch.data ExecState.empty).log := by
  unfold channelOutput
  cases hmap : p.Hardware2Detector ddl ch.hwaddr with
  | none => simp [ExecState.empty, LogMsg.isStripRange]
  | some loc =>
    obtain ⟨det, ring, sec, str⟩ := loc
    simp only [List.filter_eq_self]
    intro m hm
    rcases foldLoop_log_mem _ _ _ _ _ hm with h | ⟨a, b, h⟩
    · simp [ExecState.empty] at h
    · subst h
      simp [LogMsg.isStripRange]

theorem filter_map_eq_flatMap_ite {α β : Type} (q : α → Bool) (f : α → β) (l : List α) :
    (l.filter q).map f = l.flatMap (fun a => if q a then [f a] else []) := by
  induction l with
  | nil => rfl
  | cons a rest ih =>
    by_cases h : q a <;> simp [List.filter_cons, h, ih]

/-- The samples of the groups `0 .. n-1`, group after group, are the buffer entries
`0 .. rate*n - 1`. -/
theorem flatMap_groups (data : Nat → Nat) (rate n : Nat) :
    (List.range n).flatMap (fun k => (List.range rate).map (fun f => data (rate * k + f))) =
      (List.range (rate * n)).map data := by
  induction n with
  | zero => simp
  | succ m ih =>
    rw [List.range_succ, List.flatMap_append, ih, Nat.mul_succ, List.range_add]
    simp [List.flatMap_singleton]

/-! ## The claims -/

/-- C1 (amended): for a channel whose address `Hardware2Detector` maps to
`(det, ring, sec, str)`, at rate 1, 2 or 3, the record of group `k` (with `rate * k < last`)
is appended at position `k` behind what the array held; it carries `det`, `ring`, `sec`, the
strip `(str + k) mod 65536` (which is `str + k` as long as that fits 16 bits), sample0
`data[rate*k]`, sample1 `data[rate*k+1]` for rate 2 and 3 and 0 for rate 1, sample2
`data[rate*k+2]` for rate 3 and 0 otherwise. -/
theorem fold_record_layout (p : AliFMDParameters) (ddl rate : Nat) (ch : ChannelRead)
    (rest : List ChannelRead) (s : ExecState) (det : Nat) (ring : Char) (sec str k : Nat)
    (hmap : p.Hardware2Detector ddl ch.hwaddr = some (det, ring, sec, str))
    (hr : rate = 1 ∨ rate = 2 ∨ rate = 3) (hk : rate * k < ch.last) :
    (whileChannels p ddl rate (ch :: rest) s).array[s.array.length + k]? =
        some { det := det, ring := ring, sec := sec, strip := (str + k) % 65536,
               sample0 := ch.data (rate * k),
               sample1 := if rate ≥ 2 then ch.data (rate * k + 1) else 0,
               sample2 := if rate ≥ 3 then ch.data (rate * k + 2) else 0 }
      ∧ (str + k < 65536 → (str + k) % 65536 = str + k) := by
  refine ⟨?_, fun h => Nat.mod_eq_of_lt h⟩
  obtain ⟨tail, ht⟩ := whileChannels_cons_mapped p ddl rate ch rest s det ring sec str hmap
  have hk2 : k < numGroups rate ch.last := (numGroups_lt_iff hr ch.last k).mp hk
  rw [ht, foldChannel_array _ _ _ _ _ _ _ _ hr, List.append_assoc,
    List.getElem?_append_right (by omega), Nat.add_sub_cancel_left,
    List.getElem?_append_left (by simpa using hk2), List.getElem?_map,
    List.getElem?_range hk2]
  rfl

/-- Witness of C1: scenario B, rate 3, base strip 10, samples 5 7 9 11 13 15, group 1. -/
theorem fold_record_layout_witness :
    (whileChannels (scenarioParams 3 10) 4096 3 [channelOf 0 [5, 7, 9, 11, 13, 15] 0]
        ExecState.empty).array[0 + 1]? = some ⟨1, 'I', 3, 11, 11, 13, 15⟩ :=
  (fold_record_layout (scenarioParams 3 10) 4096 3 (channelOf 0 [5, 7, 9, 11, 13, 15] 0) []
    ExecState.empty 1 'I' 3 10 1 rfl (by decide) (by decide)).1

/-- Counterexample to C1 as stated: with base strip 65535 the record of group 1 has strip 0,
not 65535 + 1, because the strip is stored in 16 bits. -/
theorem fold_record_layout_counterexample :
    (scenarioParams 1 65535).Hardware2Detector 4096 0 = some (1, 'I', 3, 65535)
      ∧ 1 * 1 < (channelOf 0 [5, 7] 0).last
      ∧ (whileChannels (scenarioParams 1 65535) 4096 1 [channelOf 0 [5, 7] 0]
          ExecState.empty).array[0 + 1]? = some ⟨1, 'I', 3, 0, 7, 0, 0⟩
      ∧ (whileChannels (scenarioParams 1 65535) 4096 1 [channelOf 0 [5, 7] 0]
          ExecState.empty).array[0 + 1]? ≠ some ⟨1, 'I', 3, 65535 + 1, 7, 0, 0⟩ := by
  decide

/-- C2: at rate 1, 2 or 3 a channel of `rate * k` samples appends exactly `k` records; the
record of group `j` holds `data[rate*j]`, and `data[rate*j+1]`, `data[rate*j+2]` as far as the
rate goes; every such index is below `last`, so the records do not depend on what the buffer
holds at `last` and beyond. -/
theorem fold_exact_multiple (det : Nat) (ring : Char) (sec str rate k : Nat)
    (data : Nat → Nat) (s : ExecState) (hr : rate = 1 ∨ rate = 2 ∨ rate = 3) :
    (foldChannel det ring sec str rate (rate * k) data s).array =
        s.array ++ (List.range k).map (fun j =>
          { det := det, ring := ring, sec := sec, strip := (str + j) % 65536,
            sample0 := data (rate * j),
            sample1 := if rate ≥ 2 then data (rate * j + 1) else 0,
            sample2 := if rate ≥ 3 then data (rate * j + 2) else 0 })
      ∧ (foldChannel det ring sec str rate (rate * k) data s).array.length = s.array.length + k
      ∧ (∀ j f, j < k → f < rate → rate * j + f < rate * k)
      ∧ (∀ data2 : Nat → Nat, (∀ i, i < rate * k → data2 i = data i) →
          (foldChannel det ring sec str rate (rate * k) data2 s).array =
            (foldChannel det ring sec str rate (rate * k) data s).array) := by
  have hn : numGroups rate (rate * k) = k := by
    unfold numGroups
    rcases hr with h | h | h <;> subst h <;> omega
  have hidx : ∀ j f, j < k → f < rate → rate * j + f < rate * k := by
    intro j f hj hf
    calc rate * j + f < rate * j + rate := by omega
      _ = rate * (j + 1) := by ring
      _ ≤ rate * k := Nat.mul_le_mul_left _ hj
  refine ⟨?_, ?_, hidx, ?_⟩
  · rw [foldChannel_array _ _ _ _ _ _ _ _ hr, hn]
    rfl
  · rw [foldChannel_array _ _ _ _ _ _ _ _ hr, hn]
    simp
  · intro data2 h2
    rw [foldChannel_array _ _ _ _ _ _ _ _ hr, foldChannel_array _ _ _ _ _ _ _ _ hr, hn]
    congr 1
    apply List.map_congr_left
    intro j hj
    have hj2 : j < k := List.mem_range.mp hj
    have h0 := h2 _ (hidx j 0 hj2 (by omega))
    simp only [digitAt, channelVars]
    rcases hr with h | h | h
    · subst h
      simpa using h0
    · subst h
      have h1 := h2 _ (hidx j 1 hj2 (by omega))
      simp at h0
      simp [h0, h1]
    · subst h
      have h1 := h2 _ (hidx j 1 hj2 (by omega))
      have h2b := h2 _ (hidx j 2 hj2 (by omega))
      simp at h0
      simp [h0, h1, h2b]

/-- Witness of C2: scenario A, rate 1, base strip 10, samples 5 7 9 give exactly three
records. -/
theorem fold_exact_multiple_witness :
    (foldChannel 1 'I' 3 10 1 (1 * 3) (bufOf [5, 7, 9] 0) ExecState.empty).array =
      [⟨1, 'I', 3, 10, 5, 0, 0⟩, ⟨1, 'I', 3, 11, 7, 0, 0⟩, ⟨1, 'I', 3, 12, 9, 0, 0⟩] :=
  (fold_exact_multiple 1 'I' 3 10 1 3 (bufOf [5, 7, 9] 0) ExecState.empty (by decide)).1

/-- C3, the code at the failing input: rate 2, three samples 5 7 9, the buffer holding 42
behind them.  Two records are appended, and sample1 of the last one is the 42 found at
`data[last]`, not 0. -/
theorem fold_trailing_group_reads_buffer :
    (foldChannel 1 'I' 3 10 2 (2 * 1 + 1) (bufOf [5, 7, 9] 42) ExecState.empty).array =
        [⟨1, 'I', 3, 10, 5, 7, 0⟩, ⟨1, 'I', 3, 11, 9, 42, 0⟩]
      ∧ (Exec (scenarioParams 2 10)
          { ReadHeader := true,
            blocks := [{ ddlId := 0, channels := [channelOf 0 [5, 7, 9] 42] }] }).array =
        [⟨1, 'I', 3, 10, 5, 7, 0⟩, ⟨1, 'I', 3, 11, 9, 42, 0⟩]
      ∧ (foldChannel 1 'I' 3 10 2 (2 * 1 + 1) (bufOf [5, 7, 9] 42) ExecState.empty).array ≠
        [⟨1, 'I', 3, 10, 5, 7, 0⟩, ⟨1, 'I', 3, 11, 9, 0, 0⟩] := by
  decide

/-- C4, the code at the failing input: rate 2, one block whose buffer holds 0 throughout when
it is entered; first a channel with the unmapped address 7 and the samples 1 2 3 42, then a
channel with the mapped address 0 and the samples 5 7 9.  The unmapped channel appends no
record of its own, but its fourth sample stays in the buffer at index 3 and comes out as
sample1 of the last record of the mapped channel.  In the run without the unmapped channel
that field is the 0 the buffer held before, so the records of the other channel are not those
of the run without it. -/
theorem unmapped_channel_leaves_samples :
    (Exec (scenarioParams 2 10)
        (AliRawReader.mk true
          [Block.mk 0 (readBlock (fun _ => 0)
            [ChannelRun.mk 7 [1, 2, 3, 42] false, ChannelRun.mk 0 [5, 7, 9] false])])).array =
        [⟨1, 'I', 3, 10, 5, 7, 0⟩, ⟨1, 'I', 3, 11, 9, 42, 0⟩]
      ∧ (Exec (scenarioParams 2 10)
        (AliRawReader.mk true
          [Block.mk 0 (readBlock (fun _ => 0) [ChannelRun.mk 0 [5, 7, 9] false])])).array =
        [⟨1, 'I', 3, 10, 5, 7, 0⟩, ⟨1, 'I', 3, 11, 9, 0, 0⟩]
      ∧ (Exec (scenarioParams 2 10)
        (AliRawReader.mk true
          [Block.mk 0 (readBlock (fun _ => 0)
            [ChannelRun.mk 7 [1, 2, 3, 42] false, ChannelRun.mk 0 [5, 7, 9] false])])).array ≠
        (Exec (scenarioParams 2 10)
          (AliRawReader.mk true
            [Block.mk 0 (readBlock (fun _ => 0) [ChannelRun.mk 0 [5, 7, 9] false])])).array := by
  decide

/-- C5: when `ReadHeader()` returns false the run logs the header error and ends at once:
no record, `ReadHeader` the only call on the reader (no `Select`, no `ReadNextData`).  The
header error is logged only then; when `ReadHeader()` succeeds `Select` is called and
`ReadNextData` is called. -/
theorem header_failure_aborts (p : AliFMDParameters) (r : AliRawReader) :
    (r.ReadHeader = false →
        Exec p r = { array := [], log := [LogMsg.headerError],
                     calls := [ReaderCall.ReadHeader], reads := [] })
      ∧ (LogMsg.headerError ∈ (Exec p r).log ↔ r.ReadHeader = false)
      ∧ (ReaderCall.ReadNextData ∈ (Exec p r).calls ↔ r.ReadHeader = true)
      ∧ (ReaderCall.Select (p.kBaseDDL / 256) ∈ (Exec p r).calls ↔ r.ReadHeader = true) := by
  cases h : r.ReadHeader with
  | false => simp [Exec, h]
  | true =>
    refine ⟨by simp, ?_, ?_, ?_⟩
    · simp only [iff_false, reduceCtorEq]
      rw [Exec_log p r h]
      simp only [List.mem_flatMap, blockOutput_log]
      rintro ⟨b, -, ch, -, hm⟩
      exact channelOutput_log_ne_header _ _ _ _ hm
    · simp [Exec_calls p r h]
    · simp [Exec_calls p r h]

/-- Witness of C5: scenario E, the header cannot be read although a block is there. -/
theorem header_failure_aborts_witness :
    Exec (scenarioParams 1 10)
        (AliRawReader.mk false [Block.mk 0 [channelOf 0 [5, 7, 9] 0]]) =
      { array := [], log := [LogMsg.headerError], calls := [ReaderCall.ReadHeader],
        reads := [] } :=
  (header_failure_aborts (scenarioParams 1 10)
    (AliRawReader.mk false [Block.mk 0 [channelOf 0 [5, 7, 9] 0]])).1 rfl

/-- C6 (amended): the bound check compares the stored strip minus the base strip, as a
signed difference, with 127.  At rate 1, 2 or 3 the messages a channel adds are, in order,
one for each appended record with `strip - str > 127`.  Such a record has strip above 127;
and while `str + k` fits 16 bits the record of group `k` is warned about exactly when
`k > 127`. -/
theorem strip_check_condition (det : Nat) (ring : Char) (sec str rate last : Nat)
    (data : Nat → Nat) (s : ExecState) (hr : rate = 1 ∨ rate = 2 ∨ rate = 3) :
    ∃ recs : List AliFMDDigit,
      (foldChannel det ring sec str rate last data s).array = s.array ++ recs
      ∧ (foldChannel det ring sec str rate last data s).log = s.log ++
          (recs.filter (fun d => decide ((d.strip : Int) - (str : Int) > 127))).map
            (fun d => LogMsg.stripRange d.strip 127)
      ∧ (∀ d ∈ recs, (d.strip : Int) - (str : Int) > 127 → 127 < d.strip)
      ∧ (∀ k d, recs[k]? = some d → str + k < 65536 →
          ((d.strip : Int) - (str : Int) > 127 ↔ 127 < k)) := by
  refine ⟨(List.range (numGroups rate last)).map
    (digitAt (channelVars det ring sec str rate last data)), ?_, ?_, ?_, ?_⟩
  · exact foldChannel_array _ _ _ _ _ _ _ _ hr
  · rw [foldChannel_eq _ _ _ _ _ _ _ _ hr, List.filter_map, List.map_map,
      List.range_eq_range']
    rfl
  · intro d _ h
    omega
  · intro k d hd hfit
    simp only [List.getElem?_map, Option.map_eq_some'] at hd
    obtain ⟨j, hj, rfl⟩ := hd
    have hjk : j = k := by
      by_cases hk : k < numGroups rate last
      · rw [List.getElem?_range hk] at hj
        exact (Option.some.inj hj).symm
      · rw [List.getElem?_eq_none (by simpa using hk)] at hj
        cases hj
    subst hjk
    simp only [digitAt, channelVars]
    rw [Nat.mod_eq_of_lt hfit]
    omega

/-- Witness of C6: rate 1, base strip 128, two samples. -/
theorem strip_check_condition_witness :
    ∃ recs : List AliFMDDigit,
      (foldChannel 1 'I' 3 128 1 2 (bufOf [5, 7] 0) ExecState.empty).array =
          ExecState.empty.array ++ recs
      ∧ (foldChannel 1 'I' 3 128 1 2 (bufOf [5, 7] 0) ExecState.empty).log =
          ExecState.empty.log ++
          (recs.filter (fun d => decide ((d.strip : Int) - ((128 : Nat) : Int) > 127))).map
            (fun d => LogMsg.stripRange d.strip 127)
      ∧ (∀ d ∈ recs, (d.strip : Int) - ((128 : Nat) : Int) > 127 → 127 < d.strip)
      ∧ (∀ k d, recs[k]? = some d → 128 + k < 65536 →
          ((d.strip : Int) - ((128 : Nat) : Int) > 127 ↔ 127 < k)) :=
  strip_check_condition 1 'I' 3 128 1 2 (bufOf [5, 7] 0) ExecState.empty (by decide)

/-- Counterexample to C6 as stated: base strip 128, rate 1, two samples.  Both records have a
strip above 127 (128 and 129) and no message is logged. -/
theorem strip_check_condition_counterexample :
    (foldChannel 1 'I' 3 128 1 2 (bufOf [5, 7] 0) ExecState.empty).array =
        [⟨1, 'I', 3, 128, 5, 0, 0⟩, ⟨1, 'I', 3, 129, 7, 0, 0⟩]
      ∧ (foldChannel 1 'I' 3 128 1 2 (bufOf [5, 7] 0) ExecState.empty).log = []
      ∧ 127 < 128 ∧ 127 < 129 := by
  decide

/-- C7: the bound check changes the log only.  Whatever `stripMax` the check compares with
(so whether it fires or not), the loop appends the same records as `Exec` does with 127; at
rate 1, 2 or 3 these are one record per group, `numGroups rate last` in all, the record of
group `k` with the strip `(str + k) mod 65536` computed before the check, unclamped. -/
theorem strip_check_permissive (det : Nat) (ring : Char) (sec str rate last : Nat)
    (data : Nat → Nat) (s : ExecState) (hr : rate = 1 ∨ rate = 2 ∨ rate = 3) :
    (∀ m : Nat,
        (foldLoop { channelVars det ring sec str rate last data with stripMax := m }
          last 0 s).array = (foldChannel det ring sec str rate last data s).array)
      ∧ (foldChannel det ring sec str rate last data s).array =
          s.array ++ (List.range (numGroups rate last)).map (fun k =>
            { det := det, ring := ring, sec := sec, strip := (str + k) % 65536,
              sample0 := data (rate * k),
              sample1 := if rate ≥ 2 then data (rate * k + 1) else 0,
              sample2 := if rate ≥ 3 then data (rate * k + 2) else 0 })
      ∧ (foldChannel det ring sec str rate last data s).array.length =
          s.array.length + numGroups rate last := by
  refine ⟨fun m => foldLoop_array_stripMax _ m _ _ s s rfl, ?_, ?_⟩
  · rw [foldChannel_array _ _ _ _ _ _ _ _ hr]
    rfl
  · rw [foldChannel_array _ _ _ _ _ _ _ _ hr]
    simp

/-- Witness of C7: rate 1, base strip 10, 200 samples give 200 records; the last one, of
group 199, has strip 209. -/
theorem strip_check_permissive_witness :
    (foldChannel 1 'I' 3 10 1 200 (fun i => i % 1024) ExecState.empty).array.length = 200
      ∧ (foldChannel 1 'I' 3 10 1 200 (fun i => i % 1024) ExecState.empty).array[199]? =
          some ⟨1, 'I', 3, 209, 199, 0, 0⟩ := by
  have h := strip_check_permissive 1 'I' 3 10 1 200 (fun i => i % 1024) ExecState.empty
    (by decide)
  have hn : numGroups 1 200 = 200 := by decide
  refine ⟨?_, ?_⟩
  · rw [h.2.2, hn]
    rfl
  · rw [h.2.1, hn]
    simp [ExecState.empty, List.getElem?_range]

/-- C8 (amended): when the header is read, the array at the end of the run is the
concatenation, over the blocks in the order `ReadNextData` supplies them and within a block
over the channels `ReadChannel` returns in that order, of the fold of each mapped channel
(nothing for an unmapped one).  The fold of a channel uses the rate `GetSampleRate(ddl)` and
the lookup `Hardware2Detector(ddl, ...)` with the link id `ddl` of its block, which is
`kBaseDDL + GetDDLID()` stored in 16 bits, `(kBaseDDL + GetDDLID()) mod 65536`; that is the
sum itself whenever the sum lies in `0 .. 65535`.  Supplying more blocks only appends: the
array of the shorter run is an initial part of the longer one.  The channels `ReadChannel`
returns are all reads of the block when none but the last reports `IsBof`. -/
theorem exec_output_composition (p : AliFMDParameters) (r : AliRawReader)
    (h : r.ReadHeader = true) :
    (Exec p r).array =
        r.blocks.flatMap (fun b =>
          (channelsRead p (((p.kBaseDDL : Int) + b.ddlId) % 65536).toNat b.channels).flatMap
            (fun ch =>
              match p.Hardware2Detector (((p.kBaseDDL : Int) + b.ddlId) % 65536).toNat
                  ch.hwaddr with
              | none => []
              | some (det, ring, sec, str) =>
                (foldChannel det ring sec str
                  (p.GetSampleRate (((p.kBaseDDL : Int) + b.ddlId) % 65536).toNat)
                  ch.last ch.data ExecState.empty).array))
      ∧ (∀ b ∈ r.blocks, 0 ≤ (p.kBaseDDL : Int) + b.ddlId →
          (p.kBaseDDL : Int) + b.ddlId < 65536 →
          (((p.kBaseDDL : Int) + b.ddlId) % 65536).toNat = ((p.kBaseDDL : Int) + b.ddlId).toNat)
      ∧ (∀ more : List Block,
          (Exec p r).array <+: (Exec p { r with blocks := r.blocks ++ more }).array)
      ∧ (∀ b ∈ r.blocks, (∀ ch ∈ b.channels.dropLast, ch.IsBof = false) →
          channelsRead p (((p.kBaseDDL : Int) + b.ddlId) % 65536).toNat b.channels
            = b.channels) := by
  have hcomp : (Exec p r).array =
      r.blocks.flatMap (fun b =>
        (channelsRead p (ddlOf p b) b.channels).flatMap (fun ch =>
          match p.Hardware2Detector (ddlOf p b) ch.hwaddr with
          | none => []
          | some (det, ring, sec, str) =>
            (foldChannel det ring sec str (p.GetSampleRate (ddlOf p b)) ch.last ch.data
              ExecState.empty).array)) := by
    rw [Exec_array p r h]
    congr 1
    funext b
    rw [blockOutput_array]
    congr 1
    funext ch
    unfold channelOutput
    cases p.Hardware2Detector (ddlOf p b) ch.hwaddr with
    | none => rfl
    | some loc => rfl
  refine ⟨?_, ?_, ?_, ?_⟩
  · simpa only [ddlOf] using hcomp
  · intro b _ h0 h1
    rw [Int.emod_eq_of_lt h0 h1]
  · intro more
    rw [Exec_array p r h, Exec_array p { r with blocks := r.blocks ++ more } h]
    simp only [List.flatMap_append]
    exact List.prefix_append _ _
  · intro b _ hb
    exact channelsRead_all p _ _ hb

/-- Witness of C8: two blocks on different links.  Link 4096 has rate 2 and detector 1, link
4097 has rate 3 and detector 2; the first block has a mapped, an unmapped and a mapped
channel. -/
theorem exec_output_composition_witness :
    (Exec linkParams
        (AliRawReader.mk true
          [Block.mk 0 [channelOf 0 [5, 7] 0, channelOf 7 [1, 2] 0, channelOf 0 [9, 11] 0],
           Block.mk 1 [channelOf 0 [13, 15, 17] 0]])).array
      = [⟨1, 'I', 3, 10, 5, 7, 0⟩, ⟨1, 'I', 3, 10, 9, 11, 0⟩, ⟨2, 'I', 3, 10, 13, 15, 17⟩] := by
  have h := (exec_output_composition linkParams
    (AliRawReader.mk true
      [Block.mk 0 [channelOf 0 [5, 7] 0, channelOf 7 [1, 2] 0, channelOf 0 [9, 11] 0],
       Block.mk 1 [channelOf 0 [13, 15, 17] 0]]) rfl).1
  rw [h]
  decide

/-- Counterexample to C8 as stated: `kBaseDDL = 4096` and a block with `GetDDLID() = 61440`.
The sum is 65536, the link id `Exec` uses is 0: the channel is folded at the rate of link 0
(rate 1, two records), not at `GetSampleRate(65536)` (rate 2, one record). -/
theorem exec_output_composition_counterexample :
    (Exec linkParams
        (AliRawReader.mk true [Block.mk 61440 [channelOf 0 [5, 7] 0]])).array =
        [⟨1, 'I', 3, 10, 5, 0, 0⟩, ⟨1, 'I', 3, 11, 7, 0, 0⟩]
      ∧ linkParams.kBaseDDL + 61440 = 65536
      ∧ linkParams.Hardware2Detector 65536 0 = some (1, 'I', 3, 10)
      ∧ (foldChannel 1 'I' 3 10 (linkParams.GetSampleRate 65536) 2 (bufOf [5, 7] 0)
          ExecState.empty).array = [⟨1, 'I', 3, 10, 5, 7, 0⟩]
      ∧ (Exec linkParams
          (AliRawReader.mk true [Block.mk 61440 [channelOf 0 [5, 7] 0]])).array ≠
        (foldChannel 1 'I' 3 10 (linkParams.GetSampleRate 65536) 2 (bufOf [5, 7] 0)
          ExecState.empty).array := by
  decide

/-- C9 (amended): `Exec` keeps no counter.  In a run whose header is read, the messages for
unmapped addresses are, in order, one for each channel read whose address
`Hardware2Detector` does not map, so their number is the number of such channels; the
strip-range messages of the run are those the bound check of the fold emits, channel by
channel. -/
theorem unmapped_messages (p : AliFMDParameters) (r : AliRawReader)
    (h : r.ReadHeader = true) :
    (Exec p r).log.filter LogMsg.isUnmapped =
        r.blocks.flatMap (fun b =>
          ((channelsRead p (ddlOf p b) b.channels).filter
            (fun ch => (p.Hardware2Detector (ddlOf p b) ch.hwaddr).isNone)).map
            (fun ch => LogMsg.unmapped (ddlOf p b) ch.hwaddr))
      ∧ ((Exec p r).log.filter LogMsg.isUnmapped).length =
        (r.blocks.map (fun b =>
          ((channelsRead p (ddlOf p b) b.channels).filter
            (fun ch => (p.Hardware2Detector (ddlOf p b) ch.hwaddr).isNone)).length)).sum
      ∧ (Exec p r).log.filter LogMsg.isStripRange =
        r.blocks.flatMap (fun b =>
          (channelsRead p (ddlOf p b) b.channels).flatMap (fun ch =>
            match p.Hardware2Detector (ddlOf p b) ch.hwaddr with
            | none => []
            | some (det, ring, sec, str) =>
              (foldChannel det ring sec str (p.GetSampleRate (ddlOf p b)) ch.last ch.data
                ExecState.empty).log)) := by
  have h1 : (Exec p r).log.filter LogMsg.isUnmapped =
      r.blocks.flatMap (fun b =>
        ((channelsRead p (ddlOf p b) b.channels).filter
          (fun ch => (p.Hardware2Detector (ddlOf p b) ch.hwaddr).isNone)).map
          (fun ch => LogMsg.unmapped (ddlOf p b) ch.hwaddr)) := by
    rw [Exec_log p r h, List.filter_flatMap]
    congr 1
    funext b
    rw [blockOutput_log, List.filter_flatMap, filter_map_eq_flatMap_ite]
    congr 1
    funext ch
    exact channelOutput_log_unmapped _ _ _ _
  refine ⟨h1, ?_, ?_⟩
  · rw [h1, List.length_flatMap]
    congr 2
    funext b
    exact List.length_map _ _
  · rw [Exec_log p r h, List.filter_flatMap]
    congr 1
    funext b
    rw [blockOutput_log, List.filter_flatMap]
    congr 1
    funext ch
    exact channelOutput_log_stripRange _ _ _ _

/-- Witness of C9: scenario D twice over, two channels with unmapped addresses 7 and 8 leave
two messages. -/
theorem unmapped_messages_witness :
    ((Exec (scenarioParams 1 10)
        (AliRawReader.mk true
          [Block.mk 0 [channelOf 7 [1] 0, channelOf 0 [5] 0, channelOf 8 [2] 0]])).log.filter
      LogMsg.isUnmapped).length = 2 := by
  rw [(unmapped_messages (scenarioParams 1 10)
    (AliRawReader.mk true
      [Block.mk 0 [channelOf 7 [1] 0, channelOf 0 [5] 0, channelOf 8 [2] 0]]) rfl).2.1]
  decide

/-- Counterexample to C9 as stated: the whole state left behind by a run with two unmapped
channels and by a run with one.  There is no counter in it: the digits, the calls on the
reader and the buffer reads are the same in both, and the channels show only as messages. -/
theorem unmapped_messages_counterexample :
    Exec (scenarioParams 1 10)
        (AliRawReader.mk true [Block.mk 0 [channelOf 7 [1] 0, channelOf 8 [2] 0]]) =
      { array := [],
        log := [LogMsg.unmapped 4096 7, LogMsg.unmapped 4096 8],
        calls := [ReaderCall.ReadHeader, ReaderCall.Select 16, ReaderCall.ReadNextData,
                  ReaderCall.GetDataSize, ReaderCall.GetDDLID, ReaderCall.ReadNextData],
        reads := [] }
      ∧ Exec (scenarioParams 1 10)
        (AliRawReader.mk true [Block.mk 0 [channelOf 7 [1] 0]]) =
      { array := [],
        log := [LogMsg.unmapped 4096 7],
        calls := [ReaderCall.ReadHeader, ReaderCall.Select 16, ReaderCall.ReadNextData,
                  ReaderCall.GetDataSize, ReaderCall.GetDDLID, ReaderCall.ReadNextData],
        reads := [] } := by
  decide

/-- C10: at rate 1, 2 or 3 the first `rate` sample fields of the records a channel appends,
taken record after record and cut at `last`, are `data[0], ..., data[last-1]`; sample `j` sits
in record `j / rate`, field `j mod rate`. -/
theorem fold_samples_preserved (det : Nat) (ring : Char) (sec str rate last : Nat)
    (data : Nat → Nat) (s : ExecState) (hr : rate = 1 ∨ rate = 2 ∨ rate = 3) :
    ∃ recs : List AliFMDDigit,
      (foldChannel det ring sec str rate last data s).array = s.array ++ recs
      ∧ (recs.flatMap (fun d => [d.sample0, d.sample1, d.sample2].take rate)).take last =
          (List.range last).map data
      ∧ (∀ j, j < last → ∃ d, recs[j / rate]? = some d ∧
          [d.sample0, d.sample1, d.sample2][j % rate]? = some (data j)) := by
  refine ⟨(List.range (numGroups rate last)).map
    (digitAt (channelVars det ring sec str rate last data)), ?_, ?_, ?_⟩
  · exact foldChannel_array _ _ _ _ _ _ _ _ hr
  · have hfields : ∀ k, [(digitAt (channelVars det ring sec str rate last data) k).sample0,
          (digitAt (channelVars det ring sec str rate last data) k).sample1,
          (digitAt (channelVars det ring sec str rate last data) k).sample2].take rate =
        (List.range rate).map (fun f => data (rate * k + f)) := by
      intro k
      rcases hr with h | h | h <;> subst h <;>
        simp [digitAt, channelVars, List.range_succ]
    have hle : last ≤ rate * numGroups rate last := by
      have := (numGroups_lt_iff hr last (numGroups rate last)).not.mpr (Nat.lt_irrefl _)
      omega
    rw [List.flatMap_map]
    simp only [hfields]
    rw [flatMap_groups, ← List.map_take, List.take_range, Nat.min_eq_left hle]
  · intro j hj
    have hq : j / rate < numGroups rate last := by
      apply (numGroups_lt_iff hr last (j / rate)).mp
      have := Nat.mul_div_le j rate
      omega
    refine ⟨digitAt (channelVars det ring sec str rate last data) (j / rate), ?_, ?_⟩
    · rw [List.getElem?_map, List.getElem?_range hq]
      rfl
    · simp only [digitAt, channelVars]
      rcases hr with h | h | h
      · subst h
        simp [Nat.mod_one]
      · subst h
        rcases Nat.mod_two_eq_zero_or_one j with h0 | h1
        · have : 2 * (j / 2) = j := by omega
          simp [h0, this]
        · have : 2 * (j / 2) + 1 = j := by omega
          simp [h1, this]
      · subst h
        have hlt : j % 3 < 3 := Nat.mod_lt _ (by decide)
        have hcases : j % 3 = 0 ∨ j % 3 = 1 ∨ j % 3 = 2 := by omega
        rcases hcases with h0 | h1 | h2
        · have : 3 * (j / 3) = j := by omega
          simp [h0, this]
        · have : 3 * (j / 3) + 1 = j := by omega
          simp [h1, this]
        · have : 3 * (j / 3) + 2 = j := by omega
          simp [h2, this]

/-- Witness of C10: rate 2, samples 5 7 9 (the buffer holds 42 behind them): the fields of the
two records, cut at three, give back 5 7 9. -/
theorem fold_samples_preserved_witness :
    ∃ recs : List AliFMDDigit,
      (foldChannel 1 'I' 3 10 2 3 (bufOf [5, 7, 9] 42) ExecState.empty).array =
          ExecState.empty.array ++ recs
      ∧ (recs.flatMap (fun d => [d.sample0, d.sample1, d.sample2].take 2)).take 3 =
          (List.range 3).map (bufOf [5, 7, 9] 42)
      ∧ (∀ j, j < 3 → ∃ d, recs[j / 2]? = some d ∧
          [d.sample0, d.sample1, d.sample2][j % 2]? = some (bufOf [5, 7, 9] 42 j)) :=
  fold_samples_preserved 1 'I' 3 10 2 3 (bufOf [5, 7, 9] 42) ExecState.empty (by decide)

/-- C11: at rate 1, 2 or 3 (so the divisor of `i / rate` is not zero) and for a channel of
length `last <= 2046`, the loop reads the buffer at `rate*k`, and at `rate*k+1` for rate 2
and 3, and at `rate*k+2` for rate 3, for the groups `k` with `rate*k < last`; every one of
these indices is below 2048, the size of `data`, also those at `last` and beyond read for an
incomplete last group; and the loop comes to its exit: with `last` iterations allowed or with
more, the result is the same. -/
theorem fold_reads_in_bounds (det : Nat) (ring : Char) (sec str rate last : Nat)
    (data : Nat → Nat) (s : ExecState) (hr : rate = 1 ∨ rate = 2 ∨ rate = 3)
    (hl : last ≤ 2046) :
    rate ≠ 0
      ∧ (foldChannel det ring sec str rate last data s).reads =
          s.reads ++ (List.range (numGroups rate last)).flatMap (fun k =>
            [rate * k] ++ (if rate ≥ 2 then [rate * k + 1] else []) ++
              (if rate ≥ 3 then [rate * k + 2] else []))
      ∧ (∀ rd : List Nat, (foldChannel det ring sec str rate last data s).reads = s.reads ++ rd →
          ∀ i ∈ rd, i < 2048)
      ∧ (∀ fuel, last ≤ fuel →
          foldLoop (channelVars det ring sec str rate last data) fuel 0 s =
            foldChannel det ring sec str rate last data s) := by
  have hreads : (foldChannel det ring sec str rate last data s).reads =
      s.reads ++ (List.range (numGroups rate last)).flatMap (fun k =>
        [rate * k] ++ (if rate ≥ 2 then [rate * k + 1] else []) ++
          (if rate ≥ 3 then [rate * k + 2] else [])) := by
    rw [foldChannel_eq _ _ _ _ _ _ _ _ hr, List.range_eq_range']
    rfl
  refine ⟨by omega, hreads, ?_, ?_⟩
  · intro rd hrd i hi
    rw [hreads] at hrd
    rw [← List.append_cancel_left hrd] at hi
    obtain ⟨k, hk, hik⟩ := List.mem_flatMap.mp hi
    have hk2 : rate * k < last := (numGroups_lt_iff hr last k).mpr (List.mem_range.mp hk)
    rcases hr with h | h | h <;> subst h <;> simp at hik <;> omega
  · intro fuel hf
    exact foldLoop_fuel _ fuel last 0 s (by simpa [channelVars] using hf)
      (by simp [channelVars])

/-- Witness of C11: rate 3 and four samples; the second group is incomplete and the loop
reads the buffer at 4 and 5, beyond `last`. -/
theorem fold_reads_in_bounds_witness :
    (foldChannel 1 'I' 3 10 3 4 (bufOf [5, 7, 9, 11] 0) ExecState.empty).reads =
        [0, 1, 2, 3, 4, 5]
      ∧ (∀ i ∈ [0, 1, 2, 3, 4, 5], i < 2048) := by
  have h := fold_reads_in_bounds 1 'I' 3 10 3 4 (bufOf [5, 7, 9, 11] 0) ExecState.empty
    (by decide) (by decide)
  have hrd : (foldChannel 1 'I' 3 10 3 4 (bufOf [5, 7, 9, 11] 0) ExecState.empty).reads =
      [0, 1, 2, 3, 4, 5] := by decide
  exact ⟨hrd, h.2.2.1 [0, 1, 2, 3, 4, 5] (by rw [hrd]; rfl)⟩

end AliFMDRawReader

namespace AliFMDAlignFaker

/-! ## Lemmas on the loop over the nodes -/

/-- No name matches both macros: the character at index 2 is `M` for one, `S` for the
other. -/
theorem half_sensor_exclusive (name : List Char) :
    ¬ (IS_NODE_HALF name = true ∧ IS_NODE_SENSOR name = true) := by
  unfold IS_NODE_HALF IS_NODE_SENSOR
  simp only [Bool.and_eq_true, beq_iff_eq]
  rintro ⟨⟨⟨-, hM⟩, -⟩, ⟨⟨-, hS⟩, -⟩⟩
  rw [hM] at hS
  exact absurd hS (by decide)

/-- The loop appends, in order, one object for each node that matches a macro whose bit is
set in the mask, made by the function of the macro it matches. -/
theorem whileNodes_fArray (kHalves kSensors mask : Nat) (top : List Char)
    (visits : List Visit) (s : LoopState) :
    (whileNodes kHalves kSensors mask top visits s).fArray =
      s.fArray ++
        (visits.filter (fun v =>
          (IS_NODE_HALF v.name && TESTBIT mask kHalves) ||
            (IS_NODE_SENSOR v.name && TESTBIT mask kSensors))).map
          (fun v => { path := (buildPath top v).1, id := v.number,
                      made := if IS_NODE_HALF v.name then Maker.half else Maker.sensor }) := by
  induction visits generalizing s with
  | nil => simp [whileNodes]
  | cons v rest ih =>
    have hex := half_sensor_exclusive v.name
    rw [whileNodes]
    cases hH : IS_NODE_HALF v.name <;> cases hS : IS_NODE_SENSOR v.name <;>
      cases hbH : TESTBIT mask kHalves <;> cases hbS : TESTBIT mask kSensors <;>
      simp [hH, hS] at hex <;>
      simp [ih, List.filter_cons, hH, hS, hbH, hbS, MakeAlignHalf, MakeAlignSensor, MakeAlign] <;>
      (split <;> simp)

/-! ## The claim -/

/-- C12: when the geometry is there and has a top volume, and every node name has at least
four characters, the array after `Exec` holds, in the order of the traversal, exactly one
object for each visited node that matches `IS_NODE_HALF` (name[0] = F, name[2] = M, name[3]
one of T, B) while bit number `kHalves` of the mask is set, or matches `IS_NODE_SENSOR`
(name[0] = F, name[2] = S, name[3] = E) while bit number `kSensors` of the mask is set, and
nothing for any other node.  No name matches both patterns, and with neither bit set the
array is empty. -/
theorem exec_mask_selection (kHalves kSensors : Nat) (g : Geometry) (f : Faker)
    (visits : List Visit)
    (hgeo : g.gGeoManager = true ∨ g.importOk = true)
    (htop : g.topVolume = some visits)
    (hlen : ∀ v ∈ visits, 4 ≤ v.name.length) :
    (Exec kHalves kSensors g f).fArray =
        some ((visits.filter (fun v =>
          (IS_NODE_HALF v.name && Nat.testBit f.fMask kHalves) ||
            (IS_NODE_SENSOR v.name && Nat.testBit f.fMask kSensors))).map
          (fun v => { path := (buildPath g.topName v).1, id := v.number,
                      made := if IS_NODE_HALF v.name then Maker.half else Maker.sensor }))
      ∧ (∀ v ∈ visits, ∃ c0 c1 c2 c3 rest, v.name = c0 :: c1 :: c2 :: c3 :: rest
          ∧ (IS_NODE_HALF v.name = true ↔ c0 = 'F' ∧ c2 = 'M' ∧ (c3 = 'T' ∨ c3 = 'B'))
          ∧ (IS_NODE_SENSOR v.name = true ↔ c0 = 'F' ∧ c2 = 'S' ∧ c3 = 'E')
          ∧ ¬ (IS_NODE_HALF v.name = true ∧ IS_NODE_SENSOR v.name = true))
      ∧ (Nat.testBit f.fMask kHalves = false → Nat.testBit f.fMask kSensors = false →
          (Exec kHalves kSensors g f).fArray = some []) := by
  have hentry : ¬ ((!g.gGeoManager && !g.importOk) = true) := by
    rcases hgeo with h | h <;> simp [h]
  have hExec : (Exec kHalves kSensors g f).fArray =
      some (whileNodes kHalves kSensors f.fMask g.topName visits
        { fArray := [], log := [] }).fArray := by
    unfold Exec
    rw [if_neg hentry, htop]
  have hbit : ∀ i, TESTBIT f.fMask i = Nat.testBit f.fMask i := fun _ => rfl
  refine ⟨?_, ?_, ?_⟩
  · rw [hExec, whileNodes_fArray]
    simp only [hbit, List.nil_append]
  · intro v hv
    have h4 := hlen v hv
    obtain ⟨name, level, nodeAt, number, setOk⟩ := v
    match name, h4 with
    | c0 :: c1 :: c2 :: c3 :: rest, _ =>
      refine ⟨c0, c1, c2, c3, rest, rfl, ?_, ?_, half_sensor_exclusive _⟩
      · simp [IS_NODE_HALF, charAt, and_assoc]
      · simp [IS_NODE_SENSOR, charAt, and_assoc]
  · intro hH hS
    rw [hExec, whileNodes_fArray]
    simp [hbit, hH, hS]

/-- Witness of C12: the traversal `F1MT`, `FMD1`, `F1SE`, `F2MB` with `kHalves = 2` and
`kSensors = 1`.  Mask 4 (bit 2 only) gives the two half rings and not the sensor, mask 2 (bit 1
only) gives the sensor alone, mask 0 gives nothing. -/
theorem exec_mask_selection_witness :
    (Exec 2 1
        (geometryOf [visitOf "F1MT" 7, visitOf "FMD1" 8, visitOf "F1SE" 9, visitOf "F2MB" 10])
        { fMask := 4, fArray := none }).fArray =
      some [⟨"/ALIC/FMD1/F1MT".toList, 7, Maker.half⟩,
            ⟨"/ALIC/FMD1/F2MB".toList, 10, Maker.half⟩]
      ∧ (Exec 2 1
        (geometryOf [visitOf "F1MT" 7, visitOf "FMD1" 8, visitOf "F1SE" 9, visitOf "F2MB" 10])
        { fMask := 2, fArray := none }).fArray =
      some [⟨"/ALIC/FMD1/F1SE".toList, 9, Maker.sensor⟩]
      ∧ (Exec 2 1
        (geometryOf [visitOf "F1MT" 7, visitOf "FMD1" 8, visitOf "F1SE" 9, visitOf "F2MB" 10])
        { fMask := 0, fArray := none }).fArray = some [] := by
  refine ⟨?_, ?_, ?_⟩
  · rw [(exec_mask_selection 2 1
      (geometryOf [visitOf "F1MT" 7, visitOf "FMD1" 8, visitOf "F1SE" 9, visitOf "F2MB" 10])
      { fMask := 4, fArray := none }
      [visitOf "F1MT" 7, visitOf "FMD1" 8, visitOf "F1SE" 9, visitOf "F2MB" 10]
      (Or.inl rfl) rfl (by decide)).1]
    decide
  · rw [(exec_mask_selection 2 1
      (geometryOf [visitOf "F1MT" 7, visitOf "FMD1" 8, visitOf "F1SE" 9, visitOf "F2MB" 10])
      { fMask := 2, fArray := none }
      [visitOf "F1MT" 7, visitOf "FMD1" 8, visitOf "F1SE" 9, visitOf "F2MB" 10]
      (Or.inl rfl) rfl (by decide)).1]
    decide
  · exact (exec_mask_selection 2 1
      (geometryOf [visitOf "F1MT" 7, visitOf "FMD1" 8, visitOf "F1SE" 9, visitOf "F2MB" 10])
      { fMask := 0, fArray := none }
      [visitOf "F1MT" 7, visitOf "FMD1" 8, visitOf "F1SE" 9, visitOf "F2MB" 10]
      (Or.inl rfl) rfl (by decide)).2.2 (by decide) (by decide)

end AliFMDAlignFaker
